import Mathlib

/-!
Verification development for the object layer of a content-addressable
version-control store (`src/object/mod.rs`, `src/object/mail_map.rs`,
`src/object/tree.rs`).

Modelling conventions:
* Bytes are `Nat` values (< 256 in practice); `Vec<u8>` / `&[u8]` become
  `List Byte`.
* Rust `String` values are represented by their UTF-8 byte lists; the
  `String::from_utf8` conversions become a validity check that returns the
  same bytes.
* A Rust panic (from `panic!`, `assert_eq!`, `.unwrap()`, `.expect`, or an
  out-of-range slice/index) is modelled as `Except.error msg`
  in functions whose Rust signature has no error channel, and as the
  distinguished `Failure.panic` constructor in `read_obj`, whose Rust
  counterpart returns `Result<_, String>` (those returned `Err` strings are
  modelled structurally by `ReadErr`).
* Recursive loops are modelled with an explicit structural fuel argument so
  that every definition is computable by the kernel; `none` means the fuel
  ran out.  Sufficiency of the fuel supplied by the wrappers is proved
  (`scanEndF_isSome`, `parse_goF_isSome`), so the out-of-fuel branches are
  dead code.
-/

namespace Git

/-- A byte, as an unbounded natural number (all source operations on bytes are
comparisons, so no wrap-around arithmetic occurs). -/
abbrev Byte := Nat

/-- UTF-8 encoding of one Unicode code point (standard encoding); used only to
build concrete byte buffers from Lean string literals. -/
def encodeChar (n : Nat) : List Byte :=
  if n < 0x80 then [n]
  else if n < 0x800 then [0xC0 + n / 64, 0x80 + n % 64]
  else if n < 0x10000 then [0xE0 + n / 4096, 0x80 + (n / 64) % 64, 0x80 + n % 64]
  else [0xF0 + n / 262144, 0x80 + (n / 4096) % 64, 0x80 + (n / 64) % 64, 0x80 + n % 64]

/-- The UTF-8 bytes of a Lean string literal, for concrete test inputs. -/
def bytesOf (s : String) : List Byte :=
  (s.data.map (fun c => encodeChar c.toNat)).flatten

/-- Helper for `find`: index of the first occurrence of `b` in `l`. -/
def findGo (l : List Byte) (b : Byte) : Option Nat :=
  match l with
  | [] => none
  | x :: xs => if x = b then some 0 else (findGo xs b).map (· + 1)

/-- Modelled from the spec: `findable.rs` is not among the provided sources;
per the spec ("Find the next space and the next newline at or after the
cursor", "Scans for the first space"), `raw.find(b, start)` returns the index
of the first occurrence of byte `b` at or after `start`, `None` if absent. -/
def find (raw : List Byte) (b : Byte) (start : Nat) : Option Nat :=
  (findGo (raw.drop start) b).map (· + start)

/-- Rust slice `&l[a..b]`: panics (here `.error`) unless `a ≤ b ≤ l.length`. -/
def sliceE (l : List Byte) (a b : Nat) : Except String (List Byte) :=
  if a ≤ b ∧ b ≤ l.length then .ok ((l.drop a).take (b - a))
  else .error "slice index out of range"

/-- One-byte-at-a-time UTF-8 acceptor: `k` is the number of continuation
bytes still expected, and the next byte must lie in `[lo, hi]` when `k > 0`
(after the first continuation byte the window is always `[0x80, 0xBF]`).
The lead-byte windows reject overlong forms, surrogates and code points
above U+10FFFF, exactly as `String::from_utf8` does. -/
def utf8Go : List Byte → Nat → Nat → Nat → Bool
  | [], k, _, _ => k == 0
  | b :: rest, k, lo, hi =>
    if k = 0 then
      if b ≤ 0x7F then utf8Go rest 0 0 0
      else if 0xC2 ≤ b ∧ b ≤ 0xDF then utf8Go rest 1 0x80 0xBF
      else if b = 0xE0 then utf8Go rest 2 0xA0 0xBF
      else if (0xE1 ≤ b ∧ b ≤ 0xEC) ∨ b = 0xEE ∨ b = 0xEF then utf8Go rest 2 0x80 0xBF
      else if b = 0xED then utf8Go rest 2 0x80 0x9F
      else if b = 0xF0 then utf8Go rest 3 0x90 0xBF
      else if 0xF1 ≤ b ∧ b ≤ 0xF3 then utf8Go rest 3 0x80 0xBF
      else if b = 0xF4 then utf8Go rest 3 0x80 0x8F
      else false
    else if lo ≤ b ∧ b ≤ hi then utf8Go rest (k - 1) 0x80 0xBF
    else false

/-- UTF-8 validity of a byte sequence, as `String::from_utf8` checks it. -/
def validUtf8 (l : List Byte) : Bool := utf8Go l 0 0 0

/-- `String::from_utf8(l).expect(msg)` / `.unwrap()`: a Rust `String` is its
UTF-8 bytes, so on success this is the identity; on invalid input the source
panics with `msg`. -/
def fromUtf8E (l : List Byte) (msg : String) : Except String (List Byte) :=
  if validUtf8 l then .ok l else .error msg

/-- Helper for `parseUsize`: decimal digits left to right onto `acc`. -/
def digitsGo : List Byte → Nat → Option Nat
  | [], acc => some acc
  | d :: ds, acc => if 48 ≤ d ∧ d ≤ 57 then digitsGo ds (acc * 10 + (d - 48)) else none

/-- Rust `str::parse::<usize>()`: an optional leading `+`, then one or more
decimal digits; fails on anything else and on overflow of 64-bit `usize`. -/
def parseUsize (l : List Byte) : Option Nat :=
  let ds := match l with
    | b :: rest => if b = 43 then rest else b :: rest
    | [] => []
  match ds with
  | [] => none
  | _ :: _ =>
    match digitsGo ds 0 with
    | some v => if v < 2 ^ 64 then some v else none
    | none => none

/-- Lowercase hexadecimal digit of a value below 16, as an ASCII byte. -/
def hexDigit (n : Byte) : Byte := if n < 10 then 48 + n else 87 + n

/-- `hex::encode`: two lowercase hex characters per byte. -/
def hexEncode : List Byte → List Byte
  | [] => []
  | b :: r => hexDigit (b / 16) :: hexDigit (b % 16) :: hexEncode r

/-! ## MailMap (`src/object/mail_map.rs`)

`IndexMap<String, String>` is an insertion-order-preserving map with unique
keys; it is modelled as the ordered list of its (key, value) pairs. -/

/-- The insertion-ordered map underlying `MailMap`. -/
abbrev MMap := List (List Byte × List Byte)

/-- `IndexMap::get`: value of the first (only) binding of `key`. -/
def mmGet : MMap → List Byte → Option (List Byte)
  | [], _ => none
  | (k, v) :: rest, key => if k = key then some v else mmGet rest key

/-- `map.entry(key).or_insert(value)`: insert at the end if absent. -/
def mmInsertIfAbsent (m : MMap) (k v : List Byte) : MMap :=
  match mmGet m k with
  | some _ => m
  | none => m ++ [(k, v)]

/-- `value.replace("\n ", "\n")` (mail_map.rs line 112): collapse each
continuation marker, scanning left to right over non-overlapping matches. -/
def collapseNl : List Byte → List Byte
  | 10 :: 32 :: rest => 10 :: collapseNl rest
  | b :: rest => b :: collapseNl rest
  | [] => []

/-- `value.replace('\n', "\n ")` (mail_map.rs line 126): re-indent each
embedded newline with a single following space. -/
def expandNl : List Byte → List Byte
  | 10 :: rest => 10 :: 32 :: expandNl rest
  | b :: rest => b :: expandNl rest
  | [] => []

/-- The `while bytes[end + 1] == b' '` loop of `extract_entry`
(mail_map.rs lines 104-107): starting from the newline at index `e`, keep
jumping to the next newline while the byte after the current one is a space.
Indexing past the end and a failed `find(..).unwrap()` are Rust panics.
`none` is out-of-fuel and never occurs at the fuel used (`scanEndF_isSome`). -/
def scanEndF : Nat → List Byte → Nat → Option (Except String Nat)
  | 0, _, _ => none
  | fuel + 1, bytes, e =>
    if h : e + 1 < bytes.length then
      if bytes.get ⟨e + 1, h⟩ = 32 then
        match find bytes 10 (e + 1) with
        | some e2 => scanEndF fuel bytes e2
        | none => some (.error "called Option::unwrap() on a None value")
      else some (.ok e)
    else some (.error "index out of bounds")

/-- `extract_entry(bytes, space, map)` (mail_map.rs lines 102-114): find the
first newline at or after index 1 not followed by a space; the key is
`bytes[..space]`, the raw value `bytes[space+1..end]` with `"\n "` collapsed;
insert if the key is absent and return `end`.  Every `.error` is a Rust panic.
The internal scan fuel `bytes.length + 1` always suffices (`scanEndF_isSome`),
so its dead out-of-fuel branch reports an unreachable marker. -/
def extract_entry (bytes : List Byte) (space : Nat) (map : MMap) :
    Except String (MMap × Nat) :=
  match find bytes 10 1 with
  | none => .error "called Option::unwrap() on a None value"
  | some e0 =>
    match scanEndF (bytes.length + 1) bytes e0 with
    | none => .error "unreachable: continuation scan fuel exhausted"
    | some (.error msg) => .error msg
    | some (.ok e) =>
      match sliceE bytes 0 space with
      | .error msg => .error msg
      | .ok keyB =>
        match fromUtf8E keyB "invalid key" with
        | .error msg => .error msg
        | .ok key =>
          match sliceE bytes (space + 1) e with
          | .error msg => .error msg
          | .ok valB =>
            match fromUtf8E valB "invalid value" with
            | .error msg => .error msg
            | .ok val => .ok (mmInsertIfAbsent map key (collapseNl val), e)

/-- `extract_message(bytes, map)` (mail_map.rs lines 91-95): the rest of the
buffer becomes the value of the empty-string key, if that key is absent. -/
def extract_message (bytes : List Byte) (map : MMap) : Except String MMap :=
  match fromUtf8E bytes "invalid value" with
  | .error msg => .error msg
  | .ok v => .ok (mmInsertIfAbsent map [] v)

/-- `map_to_bytes(map)` (mail_map.rs lines 117-135): emit `"{key} {value}\n"`
for every non-empty key in map order, with the value's newlines re-indented,
then append the message (the value of the empty key).  `map.get(key)` inside
the loop is never `None` because `key` is drawn from the map itself, so the
`.getD []` default is dead; `map.get("").unwrap()` panics when the empty key
is absent. -/
def map_to_bytes (m : MMap) : Except String (List Byte) :=
  let fields := m.foldl
    (fun acc kv =>
      if kv.1 = [] then acc
      else acc ++ kv.1 ++ [32] ++ expandNl ((mmGet m kv.1).getD []) ++ [10]) []
  match mmGet m [] with
  | some msg => .ok (fields ++ msg)
  | none => .error "called Option::unwrap() on a None value"

/-- The recursion of `MailMap::parse_bytes` (mail_map.rs lines 63-83), fuelled.
The four arms mirror the source `match` on `(maybe_space, maybe_newln)`:
a newline at or before the first space asserts `newline == offset` (a failed
`assert_eq!` is a panic) and reads the message; no space and no newline ends
the recursion; otherwise `extract_entry` runs on the slice `raw[offset..]`
with the *absolute* space index and its returned slice-relative `end` becomes
the next absolute offset.  `none` is out-of-fuel and never occurs at the fuel
used by `parse_bytes` (`parse_goF_isSome`). -/
def parse_goF : Nat → List Byte → Nat → MMap → Option (Except String MMap)
  | 0, _, _, _ => none
  | fuel + 1, raw, offset, map =>
    match find raw 10 offset with
    | some newline =>
      match find raw 32 offset with
      | some space =>
        -- the source guard `newline <= maybe_space.unwrap_or(newline)`
        if newline ≤ space then
          some (if newline = offset then extract_message (raw.drop (offset + 1)) map
                else .error "assertion failed: (left == right)")
        else
          match extract_entry (raw.drop offset) space map with
          | .ok (map2, next) => parse_goF fuel raw next map2
          | .error e => some (.error e)
      | none =>
        -- no space: `unwrap_or` makes the guard `newline <= newline`, always true
        some (if newline = offset then extract_message (raw.drop (offset + 1)) map
              else .error "assertion failed: (left == right)")
    | none =>
      match find raw 32 offset with
      | some space =>
        match extract_entry (raw.drop offset) space map with
        | .ok (map2, next) => parse_goF fuel raw next map2
        | .error e => some (.error e)
      | none => some (.ok map)

/-- `MailMap::parse_bytes(raw, offset)` on a map `map`: run the recursion,
then `self.data = map_to_bytes(&self.map)`.  The source executes that
assignment once per recursion level, but the map is only mutated on the way
down, so every level computes `map_to_bytes` of the same final map; one call
is observationally identical (including its panic when the empty key is
absent).  Returns the final map together with `self.data`.  The out-of-fuel
branch is dead (`parse_goF_isSome`). -/
def parse_bytes (raw : List Byte) (offset : Nat) (map : MMap) :
    Except String (MMap × List Byte) :=
  match parse_goF (raw.length + 1) raw offset map with
  | none => .error "unreachable: parse fuel exhausted"
  | some (.error e) => .error e
  | some (.ok m) =>
    match map_to_bytes m with
    | .error e => .error e
    | .ok d => .ok (m, d)

/-! ## Tree (`src/object/tree.rs`) -/

/-- Modelled from the spec: `mode.rs` is not among the provided sources; per
spec §3 the mode is a closed set {regular-file=100644, executable-file=100755,
symlink=120000, gitlink/submodule=160000, directory=040000} and `try_from`
fails for values outside it.  The directory entry `040000` reaches
`Mode::try_from` as the integer 40000 after `parse::<usize>`. -/
inductive Mode
  | regularFile
  | executableFile
  | symlink
  | gitlink
  | directory
deriving DecidableEq, Repr

/-- Modelled from the spec (`mode.rs` absent): the integer-to-kind direction of
the mode lookup table; unknown values are a decode error. -/
def Mode.tryFrom (n : Nat) : Option Mode :=
  if n = 100644 then some .regularFile
  else if n = 100755 then some .executableFile
  else if n = 120000 then some .symlink
  else if n = 160000 then some .gitlink
  else if n = 40000 then some .directory
  else none

/-- A single tree entry (tree.rs lines 74-80): mode, path, 40-hex-char hash and
the number of raw bytes the record occupied. -/
structure TreeEntry where
  mode : Mode
  path : List Byte
  hash : List Byte
  len : Nat
deriving DecidableEq, Repr

/-- `TreeEntry::from_bytes(raw, offset)` (tree.rs lines 86-117).  The Rust
function returns `Self` with no error channel: every `.error` here is a Rust
panic (`panic!`, `.unwrap()`, `.expect`, or an out-of-range slice).  The first
space must sit at exactly `offset+5` or `offset+6`; the mode digits parse
through `Mode::try_from`; the path runs to the first NUL found from `space`;
the 20 bytes after the NUL are hex-encoded; `len = null + 21 - offset`. -/
def TreeEntry.from_bytes (raw : List Byte) (offset : Nat) : Except String TreeEntry :=
  match find raw 32 offset with
  | some space =>
    if space = offset + 5 ∨ space = offset + 6 then
      match sliceE raw offset space with
      | .error e => .error e
      | .ok modeB =>
        match fromUtf8E modeB "called Result::unwrap() on an Err value" with
        | .error e => .error e
        | .ok modeS =>
          match parseUsize modeS with
          | none => .error "called Result::unwrap() on an Err value"
          | some m =>
            match Mode.tryFrom m with
            | none => .error "unable to parse file mode"
            | some mode =>
              match find raw 0 space with
              | none => .error "Failed to create TreeEntry: inconsistent input"
              | some null =>
                match sliceE raw (space + 1) null with
                | .error e => .error e
                | .ok pathB =>
                  match fromUtf8E pathB "called Result::unwrap() on an Err value" with
                  | .error e => .error e
                  | .ok path =>
                    match sliceE raw (null + 1) (null + 21) with
                    | .error e => .error e
                    | .ok hashB => .ok ⟨mode, path, hexEncode hashB, null + 21 - offset⟩
    else .error "Failed to create TreeEntry: inconsistent input"
  | none => .error "Failed to create TreeEntry: inconsistent input"

/-- The `while offset < self.bytes.len()` loop of `Tree::deserialize`
(tree.rs lines 54-62), fuelled: decode an entry at the cursor, advance by
`entry.len`, append.  `none` is out-of-fuel (the fuel used by `Tree.new`
always suffices, `tree_loopF_isSome`). -/
def tree_loopF : Nat → List Byte → Nat → List TreeEntry → Option (Except String (List TreeEntry))
  | 0, _, _, _ => none
  | fuel + 1, bytes, offset, acc =>
    if offset < bytes.length then
      match TreeEntry.from_bytes bytes offset with
      | .ok entry => tree_loopF fuel bytes (offset + entry.len) (acc ++ [entry])
      | .error e => some (.error e)
    else some (.ok acc)

/-- A tree object: the raw payload kept verbatim plus the decoded entries
(tree.rs lines 25-30; the `format` and `repo` fields carry no data relevant
to the codec). -/
structure Tree where
  bytes : List Byte
  entries : List TreeEntry
deriving DecidableEq, Repr

/-- `Tree::new(repo, data)` (tree.rs lines 33-42): `deserialize` stores the
raw input in `self.bytes` and decodes the entry list; any panic during the
loop is an `.error`.  The out-of-fuel branch is dead (`tree_loopF_isSome`). -/
def Tree.new (d : List Byte) : Except String Tree :=
  match tree_loopF (d.length + 1) d 0 [] with
  | none => .error "unreachable: tree loop fuel exhausted"
  | some (.error e) => .error e
  | some (.ok es) => .ok ⟨d, es⟩

/-- `Tree::serialize` (tree.rs lines 50-52): the stored raw bytes, verbatim. -/
def Tree.serialize (t : Tree) : List Byte := t.bytes

/-! ## ObjectStore (`src/object/mod.rs`) -/

/-- The `Err(String)` values `read` can return, represented structurally; the
constructors stand for `format!("invalid object type \"{}\"", name)`,
`"size does not match size of raw data"`, and
`format!("unsupported type \"{}\"", t)` — pairwise distinct strings. -/
inductive ReadErr
  | invalidObjectType (name : List Byte)
  | sizeMismatch
  | unsupportedType (t : List Byte)
deriving DecidableEq, Repr

/-- How a call of `read` fails: a returned `Err` (explicit failure) or a Rust
panic (`.unwrap()` on `None`/`Err`, or an out-of-range slice). -/
inductive Failure
  | panic (msg : String)
  | err (e : ReadErr)
deriving DecidableEq, Repr

/-- The typed object `read` produces.  Blob is modelled from the spec
(`blob.rs` absent: an opaque byte pass-through); Commit and Tag are modelled
from the spec (`commit.rs`/`tag.rs` absent: they delegate to the MailMap
codec, parsing the payload from offset 0 into a fresh map). -/
inductive Obj
  | blob (payload : List Byte)
  | commit (map : MMap) (data : List Byte)
  | tag (map : MMap) (data : List Byte)
  | tree (t : Tree)
deriving DecidableEq, Repr

/-- The final dispatch of `read` (mod.rs lines 85-91): construct the object
variant matching the decoded type name over the payload; an unrecognized
type name is the unsupported-type `Err`. -/
def dispatchObj (object_type payload : List Byte) : Except Failure Obj :=
  if object_type = bytesOf "blob" then .ok (.blob payload)
  else if object_type = bytesOf "commit" then
    match parse_bytes payload 0 [] with
    | .ok md => .ok (.commit md.1 md.2)
    | .error e => .error (.panic e)
  else if object_type = bytesOf "tag" then
    match parse_bytes payload 0 [] with
    | .ok md => .ok (.tag md.1 md.2)
    | .error e => .error (.panic e)
  else if object_type = bytesOf "tree" then
    match Tree.new payload with
    | .ok t => .ok (.tree t)
    | .error e => .error (.panic e)
  else .error (.err (.unsupportedType object_type))

/-- The part of `read` (mod.rs lines 74-91) after the type filter: find the
first NUL from position 0, decode `raw[first_space+1..null_byte]` as a decimal
size, fail with the size-mismatch `Err` unless it equals
`raw.len() - null_byte - 1`, then dispatch on the type name over the payload
`raw[null_byte+1..]`. -/
def read_rest (raw : List Byte) (first_space : Nat) (object_type : List Byte) :
    Except Failure Obj :=
  match find raw 0 0 with
  | none => .error (.panic "called Option::unwrap() on a None value")
  | some null_byte =>
    match sliceE raw (first_space + 1) null_byte with
    | .error e => .error (.panic e)
    | .ok szB =>
      match fromUtf8E szB "called Result::unwrap() on an Err value" with
      | .error e => .error (.panic e)
      | .ok szS =>
        match parseUsize szS with
        | none => .error (.panic "called Result::unwrap() on an Err value")
        | some object_size =>
          if object_size ≠ raw.length - null_byte - 1 then
            .error (.err .sizeMismatch)
          else
            dispatchObj object_type (raw.drop (null_byte + 1))

/-- `read` (mod.rs lines 60-94) from the decompressed buffer onward (path
resolution, file reading and decompression are external collaborators, out of
scope per the spec): find the first space, decode the type name
(`String::from_utf8(..).unwrap()`), apply the caller's optional type filter
(`Err` on mismatch), then validate the size header and dispatch
(`read_rest`). -/
def read_obj (raw : List Byte) (typename : Option (List Byte)) : Except Failure Obj :=
  match find raw 32 0 with
  | none => .error (.panic "called Option::unwrap() on a None value")
  | some first_space =>
    match fromUtf8E (raw.take first_space) "called Result::unwrap() on an Err value" with
    | .error e => .error (.panic e)
    | .ok object_type =>
      match typename with
      | some name =>
        if object_type ≠ name then .error (.err (.invalidObjectType name))
        else read_rest raw first_space object_type
      | none => read_rest raw first_space object_type

/-- Modelled from the spec: `crypto.rs` is not among the provided sources; per
spec §1/§6 hashing and compression are a trusted black box with contract
`hash(bytes) → 40-hex-char string` and `compress(bytes) → bytes` (total). -/
structure CryptoOps where
  sha1 : List Byte → List Byte
  compress : List Byte → List Byte

/-- The backing object store as a map from hash to stored (compressed) file
contents; the on-disk path `objects/<hash[0:2]>/<hash[2:40]>` is derived
bijectively from the hash (`repo_file`, out of scope per the spec). -/
abbrev Store := List (List Byte × List Byte)

/-- `write(object, dry_run)` (mod.rs lines 102-116): serialize the payload,
frame it as `"{type} {len}\0{payload}"`, hash the frame; unless `dry_run`,
compress the frame and persist it at the hash-derived path.  The hash is
returned in both modes.  (`object.serialize()` and `object.format()` are the
`payload` and `format` arguments.) -/
def write (c : CryptoOps) (store : Store) (format payload : List Byte)
    (dry_run : Bool) : List Byte × Store :=
  let header := format ++ [32] ++ bytesOf (toString payload.length) ++ [0]
  let data := header ++ payload
  let hash := c.sha1 data
  if dry_run then (hash, store)
  else (hash, (hash, c.compress data) :: store)

/-! ## Supporting lemmas -/

/-- A hit reported by `findGo` lies inside the list. -/
theorem findGo_lt {l : List Byte} {b : Byte} {i : Nat} (h : findGo l b = some i) :
    i < l.length := by
  induction l generalizing i with
  | nil => simp [findGo] at h
  | cons x xs ih =>
    simp only [findGo] at h
    split at h
    · cases h; simp
    · cases hx : findGo xs b with
      | none => rw [hx] at h; simp at h
      | some j =>
        rw [hx] at h
        simp only [Option.map_some', Option.some.injEq] at h
        have := ih hx
        simp only [List.length_cons]
        omega

/-- A hit reported by `find` lies at or after the start and inside the list. -/
theorem find_bounds {raw : List Byte} {b : Byte} {s i : Nat}
    (h : find raw b s = some i) : s ≤ i ∧ i < raw.length := by
  unfold find at h
  cases hg : findGo (raw.drop s) b with
  | none => rw [hg] at h; simp at h
  | some j =>
    rw [hg] at h
    simp only [Option.map_some', Option.some.injEq] at h
    have hj := findGo_lt hg
    rw [List.length_drop] at hj
    omega

/-- A successful Rust slice `&l[a..b]` has `a ≤ b ≤ l.length`. -/
theorem sliceE_ok {l : List Byte} {a b : Nat} {v : List Byte}
    (h : sliceE l a b = .ok v) : a ≤ b ∧ b ≤ l.length := by
  unfold sliceE at h
  split at h
  · assumption
  · exact absurd h (by simp)

/-- When `extract_entry` succeeds, the returned `end` index lies strictly
after the space (the value slice `bytes[space+1..end]` was in range), within
the slice. -/
theorem extract_entry_ok {bytes : List Byte} {space : Nat} {map m2 : MMap}
    {e : Nat} (h : extract_entry bytes space map = .ok (m2, e)) :
    space + 1 ≤ e ∧ e ≤ bytes.length := by
  unfold extract_entry at h
  split at h
  · exact absurd h (by simp)
  · split at h
    · exact absurd h (by simp)
    · exact absurd h (by simp)
    · split at h
      · exact absurd h (by simp)
      · split at h
        · exact absurd h (by simp)
        · split at h
          · exact absurd h (by simp)
          · next valB hval =>
            split at h
            · exact absurd h (by simp)
            · simp only [Except.ok.injEq, Prod.mk.injEq] at h
              obtain ⟨-, he⟩ := h
              subst he
              exact sliceE_ok hval

/-- The continuation scan halts within `bytes.length - e` steps: each
iteration jumps to a strictly later newline inside the buffer. -/
theorem scanEndF_fuel_sufficient :
    ∀ (fuel : Nat) (bytes : List Byte) (e : Nat),
      bytes.length - e < fuel → (scanEndF fuel bytes e).isSome := by
  intro fuel
  induction fuel with
  | zero => intro bytes e h; omega
  | succ n ih =>
    intro bytes e h
    rw [scanEndF]
    split
    · split
      · cases h3 : find bytes 10 (e + 1) with
        | none => simp
        | some e2 =>
          have hb := find_bounds h3
          exact ih bytes e2 (by omega)
      · simp
    · simp

/-- The `parse_bytes` recursion halts within `raw.length - offset` recursive
calls: the next offset returned by `extract_entry` is strictly greater than
the current one (it lies past the absolute space index, because the value
slice `bytes[space+1..end]` must be in range for the entry to succeed). -/
theorem parse_goF_fuel_sufficient :
    ∀ (fuel : Nat) (raw : List Byte) (offset : Nat) (map : MMap),
      raw.length - offset < fuel → (parse_goF fuel raw offset map).isSome := by
  intro fuel
  induction fuel with
  | zero => intro raw offset map h; omega
  | succ n ih =>
    intro raw offset map h
    rw [parse_goF]
    cases h10 : find raw 10 offset with
    | some newline =>
      cases h32 : find raw 32 offset with
      | none => rfl
      | some space =>
        dsimp only
        by_cases hns : newline ≤ space
        · rw [if_pos hns]
          rfl
        · rw [if_neg hns]
          cases hee : extract_entry (raw.drop offset) space map with
          | error e => rfl
          | ok p =>
            obtain ⟨map2, nxt⟩ := p
            have hb := extract_entry_ok hee
            have hf := find_bounds h32
            exact ih raw nxt map2 (by omega)
    | none =>
      cases h32 : find raw 32 offset with
      | none => rfl
      | some space =>
        dsimp only
        cases hee : extract_entry (raw.drop offset) space map with
        | error e => rfl
        | ok p =>
          obtain ⟨map2, nxt⟩ := p
          have hb := extract_entry_ok hee
          have hf := find_bounds h32
          exact ih raw nxt map2 (by omega)

/-- Every byte accepted by `digitsGo` is an ASCII digit, hence ≤ 127. -/
theorem digitsGo_ascii {l : List Byte} :
    ∀ {acc n : Nat}, digitsGo l acc = some n → ∀ b ∈ l, b ≤ 127 := by
  induction l with
  | nil => intro acc n h b hb; simp at hb
  | cons d ds ih =>
    intro acc n h b hb
    simp only [digitsGo] at h
    by_cases hd : 48 ≤ d ∧ d ≤ 57
    · rw [if_pos hd] at h
      rcases List.mem_cons.mp hb with rfl | hmem
      · exact hd.2.trans (by norm_num)
      · exact ih h b hmem
    · rw [if_neg hd] at h
      simp at h

/-- A list of ASCII bytes is valid UTF-8. -/
theorem ascii_validUtf8 : ∀ {l : List Byte}, (∀ b ∈ l, b ≤ 127) → validUtf8 l = true := by
  intro l
  induction l with
  | nil => intro _; rfl
  | cons b bs ih =>
    intro h
    have hb : b ≤ 127 := h b (List.mem_cons_self b bs)
    show utf8Go (b :: bs) 0 0 0 = true
    rw [utf8Go, if_pos rfl, if_pos hb]
    exact ih (fun x hx => h x (List.mem_cons_of_mem _ hx))

/-- A byte list that parses as a `usize` is ASCII, hence valid UTF-8 (so the
`String::from_utf8` step before the parse cannot be the failing one). -/
theorem parseUsize_ascii {l : List Byte} {n : Nat} (h : parseUsize l = some n) :
    validUtf8 l = true := by
  refine ascii_validUtf8 ?_
  unfold parseUsize at h
  cases l with
  | nil => simp at h
  | cons b bs =>
    dsimp only at h
    by_cases hb : b = 43
    · rw [if_pos hb] at h
      subst hb
      cases bs with
      | nil => simp at h
      | cons c cs =>
        intro x hx
        rcases List.mem_cons.mp hx with rfl | hmem
        · norm_num
        · cases hd : digitsGo (c :: cs) 0 with
          | none => rw [hd] at h; simp at h
          | some v => exact digitsGo_ascii hd x hmem
    · rw [if_neg hb] at h
      cases hd : digitsGo (b :: bs) 0 with
      | none => rw [hd] at h; simp at h
      | some v => intro x hx; exact digitsGo_ascii hd x hx

/-- With unique keys (the `IndexMap` invariant), looking a member pair's key
up in the map returns that pair's value. -/
theorem mmGet_of_nodup {m : MMap} (hnd : (m.map Prod.fst).Nodup) :
    ∀ kv ∈ m, mmGet m kv.1 = some kv.2 := by
  induction m with
  | nil => intro kv hkv; simp at hkv
  | cons hd t ih =>
    intro kv hkv
    obtain ⟨k, v⟩ := hd
    simp only [List.map_cons, List.nodup_cons] at hnd
    rcases List.mem_cons.mp hkv with rfl | hmem
    · simp [mmGet]
    · have hne : k ≠ kv.1 := by
        intro hEq
        exact hnd.1 (hEq ▸ List.mem_map_of_mem Prod.fst hmem)
      simp only [mmGet]
      rw [if_neg hne]
      exact ih hnd.2 kv hmem

/-- The field-emitting fold of `map_to_bytes`, described as one flattened
line per non-empty-key pair, in map order. -/
theorem map_to_bytes_foldl (m : MMap) :
    ∀ (l : List (List Byte × List Byte)) (acc : List Byte),
      (∀ kv ∈ l, mmGet m kv.1 = some kv.2) →
      l.foldl (fun acc kv =>
          if kv.1 = [] then acc
          else acc ++ kv.1 ++ [32] ++ expandNl ((mmGet m kv.1).getD []) ++ [10]) acc
        = acc ++ ((l.filter (fun kv => !kv.1.isEmpty)).map
            (fun kv => kv.1 ++ [32] ++ expandNl kv.2 ++ [10])).flatten := by
  intro l
  induction l with
  | nil => intro acc _; simp
  | cons hd t ih =>
    intro acc h
    obtain ⟨k, v⟩ := hd
    simp only [List.foldl_cons]
    by_cases hk : k = []
    · subst hk
      rw [ih _ (fun kv hkv => h kv (List.mem_cons_of_mem _ hkv))]
      simp [List.filter_cons]
    · have hv : mmGet m k = some v := h (k, v) (List.mem_cons_self _ _)
      rw [ih _ (fun kv hkv => h kv (List.mem_cons_of_mem _ hkv))]
      simp [List.filter_cons, hk, hv, List.append_assoc]

/-- The only returned `Err` the dispatch can produce is the unsupported-type
one (mail-map and tree failures are panics). -/
theorem dispatchObj_err {ot payload : List Byte} {e : ReadErr}
    (h : dispatchObj ot payload = .error (.err e)) : e = .unsupportedType ot := by
  unfold dispatchObj at h
  by_cases h1 : ot = bytesOf "blob"
  · rw [if_pos h1] at h; simp at h
  rw [if_neg h1] at h
  by_cases h2 : ot = bytesOf "commit"
  · rw [if_pos h2] at h
    cases hpb : parse_bytes payload 0 [] with
    | ok md => rw [hpb] at h; simp at h
    | error e2 => rw [hpb] at h; simp at h
  rw [if_neg h2] at h
  by_cases h3 : ot = bytesOf "tag"
  · rw [if_pos h3] at h
    cases hpb : parse_bytes payload 0 [] with
    | ok md => rw [hpb] at h; simp at h
    | error e2 => rw [hpb] at h; simp at h
  rw [if_neg h3] at h
  by_cases h4 : ot = bytesOf "tree"
  · rw [if_pos h4] at h
    cases hpb : Tree.new payload with
    | ok t => rw [hpb] at h; simp at h
    | error e2 => rw [hpb] at h; simp at h
  rw [if_neg h4] at h
  simp at h
  exact h.symm

/-- `read_rest` (the part of `read` past the type filter) never returns the
type-filter error. -/
theorem read_rest_no_filter_err (raw : List Byte) (fs : Nat) (ot nm : List Byte) :
    read_rest raw fs ot ≠ .error (.err (.invalidObjectType nm)) := by
  intro hc
  unfold read_rest at hc
  repeat' split at hc
  all_goals
    first
      | exact absurd (dispatchObj_err hc) (by simp)
      | simp at hc

/-! ## Claim theorems -/

/-- C1: evaluating `MailMap::parse_bytes` at offset 0 on the Scenario 1
payload `"tree abc...\nauthor A <a@x> 1 +0000\n\nhello\n"`.  Only the first
`key value` line becomes an entry; `extract_entry` returns the position of
that line's terminating newline, so the recursive call lands on it, takes the
blank-line branch, and stores the whole remainder — author line included —
as the message.  The result is a two-entry map, not the three-entry map
`{tree, author, ""}` the claim states. -/
theorem c1_parse_scenario1_eval :
    parse_bytes (bytesOf "tree abc...\nauthor A <a@x> 1 +0000\n\nhello\n") 0 [] =
      .ok ([(bytesOf "tree", bytesOf "abc..."),
            ([], bytesOf "author A <a@x> 1 +0000\n\nhello\n")],
           bytesOf "tree abc...\nauthor A <a@x> 1 +0000\n\nhello\n") ∧
    [(bytesOf "tree", bytesOf "abc..."),
     ([], bytesOf "author A <a@x> 1 +0000\n\nhello\n")] ≠
      [(bytesOf "tree", bytesOf "abc..."),
       (bytesOf "author", bytesOf "A <a@x> 1 +0000"),
       ([], bytesOf "hello\n")] :=
  ⟨by rfl, by decide⟩

/-- C2: the round-trip law fails.  For the well-formed map
`{a ↦ b, c ↦ d, "" ↦ hello}`, `map_to_bytes` emits `"a b\nc d\nhello"` (note:
no blank-line separator before the message), and parsing that back yields the
two-entry map `{a ↦ b, "" ↦ "c d\nhello"}`, not the original. -/
theorem c2_roundtrip_eval :
    map_to_bytes [(bytesOf "a", bytesOf "b"), (bytesOf "c", bytesOf "d"),
        ([], bytesOf "hello")] = .ok (bytesOf "a b\nc d\nhello") ∧
    parse_bytes (bytesOf "a b\nc d\nhello") 0 [] =
      .ok ([(bytesOf "a", bytesOf "b"), ([], bytesOf "c d\nhello")],
           bytesOf "a b\nc d\nhello") ∧
    [(bytesOf "a", bytesOf "b"), ([], bytesOf "c d\nhello")] ≠
      [(bytesOf "a", bytesOf "b"), (bytesOf "c", bytesOf "d"), ([], bytesOf "hello")] :=
  ⟨by rfl, by rfl, by decide⟩

/-- C3 counterexample: decoding the truncated record `"100644 a"` (no NUL
terminator) does not produce an explicit `Corrupt` decode error — the Rust
`TreeEntry::from_bytes` returns `Self` with no error channel, and this
`.error` models its `panic!("Failed to create TreeEntry: inconsistent
input")` abort. -/
theorem c3_from_bytes_corrupt_cex :
    TreeEntry.from_bytes (bytesOf "100644 a") 0 =
      .error "Failed to create TreeEntry: inconsistent input" := by rfl

/-- C3 amended: `TreeEntry::from_bytes` fails — by a panic (modelled as
`.error`), never a returned `Corrupt` value and never a silently dropped
partial entry — whenever the first space at or after the cursor is absent or
not at exactly `cursor+5`/`cursor+6`, or the record is truncated before its
NUL terminator, or before the 20 hash bytes that follow the NUL. -/
theorem c3_from_bytes_fails (raw : List Byte) (offset : Nat)
    (h : find raw 32 offset = none
       ∨ (∃ i, find raw 32 offset = some i ∧ i ≠ offset + 5 ∧ i ≠ offset + 6)
       ∨ (∃ i, find raw 32 offset = some i ∧ find raw 0 i = none)
       ∨ (∃ i j, find raw 32 offset = some i ∧ find raw 0 i = some j ∧
            raw.length < j + 21)) :
    ∃ msg, TreeEntry.from_bytes raw offset = .error msg := by
  unfold TreeEntry.from_bytes
  rcases h with h | ⟨i, hf, h5, h6⟩ | ⟨i, hf, hn⟩ | ⟨i, j, hf, hj, hlen⟩
  · rw [h]
    exact ⟨_, rfl⟩
  · rw [hf]
    dsimp only
    rw [if_neg (by tauto)]
    exact ⟨_, rfl⟩
  · rw [hf]
    dsimp only
    by_cases hpos : i = offset + 5 ∨ i = offset + 6
    · rw [if_pos hpos]
      cases hsl : sliceE raw offset i with
      | error e => exact ⟨_, rfl⟩
      | ok modeB =>
        dsimp only
        cases hu : fromUtf8E modeB "called Result::unwrap() on an Err value" with
        | error e => exact ⟨_, rfl⟩
        | ok modeS =>
          dsimp only
          cases hp : parseUsize modeS with
          | none => exact ⟨_, rfl⟩
          | some m =>
            dsimp only
            cases hm : Mode.tryFrom m with
            | none => exact ⟨_, rfl⟩
            | some mode =>
              dsimp only
              rw [hn]
              exact ⟨_, rfl⟩
    · rw [if_neg hpos]
      exact ⟨_, rfl⟩
  · rw [hf]
    dsimp only
    by_cases hpos : i = offset + 5 ∨ i = offset + 6
    · rw [if_pos hpos]
      cases hsl : sliceE raw offset i with
      | error e => exact ⟨_, rfl⟩
      | ok modeB =>
        dsimp only
        cases hu : fromUtf8E modeB "called Result::unwrap() on an Err value" with
        | error e => exact ⟨_, rfl⟩
        | ok modeS =>
          dsimp only
          cases hp : parseUsize modeS with
          | none => exact ⟨_, rfl⟩
          | some m =>
            dsimp only
            cases hm : Mode.tryFrom m with
            | none => exact ⟨_, rfl⟩
            | some mode =>
              dsimp only
              rw [hj]
              dsimp only
              cases hps : sliceE raw (i + 1) j with
              | error e => exact ⟨_, rfl⟩
              | ok pathB =>
                dsimp only
                cases hup : fromUtf8E pathB "called Result::unwrap() on an Err value" with
                | error e => exact ⟨_, rfl⟩
                | ok path =>
                  dsimp only
                  rw [show sliceE raw (j + 1) (j + 21) =
                        Except.error "slice index out of range" from by
                    unfold sliceE
                    rw [if_neg (by omega)]]
                  exact ⟨_, rfl⟩
    · rw [if_neg hpos]
      exact ⟨_, rfl⟩

/-- C3 witness: a record truncated before its 20 hash bytes fails. -/
theorem c3_from_bytes_fails_witness :
    ∃ msg, TreeEntry.from_bytes (bytesOf "100644 a.txt\x00abc") 0 = .error msg :=
  c3_from_bytes_fails (bytesOf "100644 a.txt\x00abc") 0
    (Or.inr (Or.inr (Or.inr ⟨6, 12, by rfl, by rfl, by decide⟩)))

/-- C4 counterexample: a decompressed buffer with no space delimiter (here
`"blob"`) makes `read` abort via `raw.find(b' ', 0).unwrap()` — a panic, not
a returned `Corrupt` error. -/
theorem c4_read_missing_delims_cex :
    read_obj (bytesOf "blob") none =
      .error (.panic "called Option::unwrap() on a None value") := by rfl

/-- C4 amended: when the first space is absent, `read` panics (`unwrap` on
`None`); when the space is present, the type name is valid UTF-8 and the
caller's type filter passes, a missing NUL delimiter likewise panics.  The
failure is an abort, not an explicit returned error (and with a failing type
filter the `TypeMismatch` error is returned before the NUL is ever sought). -/
theorem c4_read_missing_delims_panics (raw : List Byte) (tn : Option (List Byte))
    (h : find raw 32 0 = none
       ∨ (∃ s, find raw 32 0 = some s ∧ validUtf8 (raw.take s) = true
            ∧ (tn = none ∨ tn = some (raw.take s)) ∧ find raw 0 0 = none)) :
    ∃ msg, read_obj raw tn = .error (.panic msg) := by
  rcases h with h | ⟨s, hs, hv, htn, hz⟩
  · unfold read_obj
    rw [h]
    exact ⟨_, rfl⟩
  · unfold read_obj
    rw [hs]
    dsimp only
    rw [show fromUtf8E (raw.take s) "called Result::unwrap() on an Err value"
          = .ok (raw.take s) from by unfold fromUtf8E; rw [if_pos hv]]
    dsimp only
    rcases htn with rfl | rfl
    · dsimp only
      unfold read_rest
      rw [hz]
      exact ⟨_, rfl⟩
    · dsimp only
      rw [if_neg (by simp)]
      unfold read_rest
      rw [hz]
      exact ⟨_, rfl⟩

/-- C4 witness: `read` of `"blob"` under a matching filter panics. -/
theorem c4_read_missing_delims_panics_witness :
    ∃ msg, read_obj (bytesOf "blob") (some (bytesOf "blob")) = .error (.panic msg) :=
  c4_read_missing_delims_panics (bytesOf "blob") (some (bytesOf "blob"))
    (Or.inl (by rfl))

/-- C5: with both header delimiters present (the space before the NUL), a
decodable decimal length field, and a non-triggering type filter, `read`
fails with the `Corrupt` "size does not match" error exactly when the decoded
length differs from `buffer.len() - (null_offset + 1)`. -/
theorem c5_size_check_iff (raw : List Byte) (tn : Option (List Byte)) (s z L : Nat)
    (hs : find raw 32 0 = some s) (hz : find raw 0 0 = some z) (hsz : s < z)
    (hv : validUtf8 (raw.take s) = true)
    (htn : tn = none ∨ tn = some (raw.take s))
    (hL : parseUsize ((raw.drop (s + 1)).take (z - (s + 1))) = some L) :
    (read_obj raw tn = .error (.err .sizeMismatch) ↔ L ≠ raw.length - z - 1) := by
  have hzb := find_bounds hz
  have hro : read_obj raw tn = read_rest raw s (raw.take s) := by
    unfold read_obj
    rw [hs]
    dsimp only
    rw [show fromUtf8E (raw.take s) "called Result::unwrap() on an Err value"
          = .ok (raw.take s) from by unfold fromUtf8E; rw [if_pos hv]]
    dsimp only
    rcases htn with rfl | rfl
    · rfl
    · dsimp only
      rw [if_neg (by simp)]
  rw [hro]
  unfold read_rest
  rw [hz]
  dsimp only
  rw [show sliceE raw (s + 1) z = .ok ((raw.drop (s + 1)).take (z - (s + 1))) from by
    unfold sliceE
    rw [if_pos ⟨by omega, by omega⟩]]
  dsimp only
  rw [show fromUtf8E ((raw.drop (s + 1)).take (z - (s + 1)))
        "called Result::unwrap() on an Err value"
        = .ok ((raw.drop (s + 1)).take (z - (s + 1))) from by
    unfold fromUtf8E
    rw [if_pos (parseUsize_ascii hL)]]
  dsimp only
  rw [hL]
  dsimp only
  by_cases hsize : L = raw.length - z - 1
  · rw [if_neg (by omega)]
    simp only [hsize, ne_eq, not_true_eq_false, iff_false]
    intro hc
    exact absurd (dispatchObj_err hc) (by simp)
  · rw [if_pos (by omega)]
    simp [hsize]

/-- C5 witness: the frame `"blob 4\x00abc"` (declared length 4, actual 3)
fails with the size-mismatch error. -/
theorem c5_size_check_iff_witness :
    read_obj (bytesOf "blob 4\x00abc") none = .error (.err .sizeMismatch) :=
  (c5_size_check_iff (bytesOf "blob 4\x00abc") none 4 6 4 (by rfl) (by rfl)
    (by norm_num) (by rfl) (Or.inl rfl) (by rfl)).mpr (by decide)

/-- C6: when the stored header's type name decodes, a caller-supplied
`expected_type` that differs from it makes `read` fail with the
`TypeMismatch` error; an equal `expected_type` makes `read` behave exactly as
with no filter; and with no filter `read` never produces a type-filter
failure. -/
theorem c6_type_filter (raw name : List Byte) (s : Nat)
    (hs : find raw 32 0 = some s) (hv : validUtf8 (raw.take s) = true) :
    (name ≠ raw.take s →
        read_obj raw (some name) = .error (.err (.invalidObjectType name)))
    ∧ (name = raw.take s → read_obj raw (some name) = read_obj raw none)
    ∧ ∀ nm, read_obj raw none ≠ .error (.err (.invalidObjectType nm)) := by
  have hutf : fromUtf8E (raw.take s) "called Result::unwrap() on an Err value"
      = .ok (raw.take s) := by
    unfold fromUtf8E
    rw [if_pos hv]
  refine ⟨?_, ?_, ?_⟩
  · intro hne
    unfold read_obj
    rw [hs]
    dsimp only
    rw [hutf]
    dsimp only
    rw [if_pos (Ne.symm hne)]
  · intro hEq
    unfold read_obj
    rw [hs]
    dsimp only
    rw [hutf]
    dsimp only
    rw [if_neg (by simp [hEq])]
  · intro nm hc
    unfold read_obj at hc
    rw [hs] at hc
    dsimp only at hc
    rw [hutf] at hc
    dsimp only at hc
    exact read_rest_no_filter_err raw s (raw.take s) nm hc

/-- C6 witness: requesting `expected_type = "commit"` against a stored blob
frame fails with the type-mismatch error (Scenario 3). -/
theorem c6_type_filter_witness :
    read_obj (bytesOf "blob 3\x00abc") (some (bytesOf "commit")) =
      .error (.err (.invalidObjectType (bytesOf "commit"))) :=
  (c6_type_filter (bytesOf "blob 3\x00abc") (bytesOf "commit") 4
    (by rfl) (by rfl)).1 (by decide)

/-- C7: `write` returns the same hash with and without `dry_run` — the hash
of the frame `"{type} {len}\0{payload}"` — and in dry-run mode the backing
store is left untouched. -/
theorem c7_write_dry_run (c : CryptoOps) (store : Store) (format payload : List Byte) :
    (write c store format payload true).1 = (write c store format payload false).1
    ∧ (write c store format payload true).1 =
        c.sha1 (format ++ [32] ++ bytesOf (toString payload.length) ++ [0] ++ payload)
    ∧ (write c store format payload true).2 = store := by
  refine ⟨rfl, ?_, rfl⟩
  simp [write, List.append_assoc]

/-- C8 counterexample: serializing a map without the empty-string key does
not produce an explicit `MissingMessage` error — the Rust `map_to_bytes`
returns `Vec<u8>` with no error channel; this `.error` models the panic of
`map.get("").unwrap()`. -/
theorem c8_missing_message_cex :
    map_to_bytes [(bytesOf "a", bytesOf "b")] =
      .error "called Option::unwrap() on a None value" := by rfl

/-- C8 amended: when the empty key is absent, serialization panics (`unwrap`
on `None`) instead of returning a `MissingMessage` error; when it is present,
serialization emits every non-empty key in map order as
`"{key} {value-with-newlines-reindented}\n"` and appends the message last. -/
theorem c8_map_to_bytes :
    (∀ m : MMap, mmGet m [] = none →
      map_to_bytes m = .error "called Option::unwrap() on a None value")
    ∧ (∀ (m : MMap) (msg : List Byte), (m.map Prod.fst).Nodup →
        mmGet m [] = some msg →
        map_to_bytes m = .ok (((m.filter (fun kv => !kv.1.isEmpty)).map
          (fun kv => kv.1 ++ [32] ++ expandNl kv.2 ++ [10])).flatten ++ msg)) := by
  constructor
  · intro m hm
    unfold map_to_bytes
    rw [hm]
  · intro m msg hnd hm
    unfold map_to_bytes
    rw [hm]
    dsimp only
    rw [map_to_bytes_foldl m m [] (mmGet_of_nodup hnd)]
    simp

/-- C8 witness: both halves at concrete maps. -/
theorem c8_map_to_bytes_witness :
    map_to_bytes [(bytesOf "x", bytesOf "y")] =
      .error "called Option::unwrap() on a None value"
    ∧ map_to_bytes [(bytesOf "k", bytesOf "v"), ([], bytesOf "m")] =
        .ok ((([(bytesOf "k", bytesOf "v"), ([], bytesOf "m")].filter
            (fun kv => !kv.1.isEmpty)).map
          (fun kv => kv.1 ++ [32] ++ expandNl kv.2 ++ [10])).flatten ++ bytesOf "m") :=
  ⟨c8_map_to_bytes.1 [(bytesOf "x", bytesOf "y")] (by rfl),
   c8_map_to_bytes.2 [(bytesOf "k", bytesOf "v"), ([], bytesOf "m")] (bytesOf "m")
     (by decide) (by rfl)⟩

/-- C9: a `Tree` stores the raw construction bytes verbatim and `serialize`
returns them unchanged, whatever entries were decoded: whenever `Tree::new d`
succeeds, serializing the result re-emits `d` byte for byte. -/
theorem c9_tree_serialize_identity (d : List Byte) (t : Tree)
    (h : Tree.new d = .ok t) : t.serialize = d := by
  unfold Tree.new at h
  cases hl : tree_loopF (d.length + 1) d 0 [] with
  | none => rw [hl] at h; exact absurd h (by simp)
  | some er =>
    rw [hl] at h
    cases er with
    | error e => exact absurd h (by simp)
    | ok es =>
      simp only [Except.ok.injEq] at h
      rw [← h]
      rfl

/-- C9 witness: a one-entry tree payload round-trips through construction. -/
theorem c9_tree_serialize_identity_witness :
    Tree.serialize ⟨bytesOf "100644 a.txt\x00" ++ List.replicate 20 0,
        [⟨.regularFile, bytesOf "a.txt", List.replicate 40 48, 33⟩]⟩ =
      bytesOf "100644 a.txt\x00" ++ List.replicate 20 0 :=
  c9_tree_serialize_identity (bytesOf "100644 a.txt\x00" ++ List.replicate 20 0)
    ⟨bytesOf "100644 a.txt\x00" ++ List.replicate 20 0,
     [⟨.regularFile, bytesOf "a.txt", List.replicate 40 48, 33⟩]⟩ (by rfl)

/-- C10: `MailMap::parse_bytes` terminates on every buffer and starting
offset: the recursion of `parse_goF` completes within `raw.length - offset`
recursive calls (fuel `raw.length - offset + 1` never runs out), because a
successful `extract_entry` always returns a next offset strictly greater
than the current one. -/
theorem c10_parse_bytes_terminates (raw : List Byte) (offset : Nat) (map : MMap) :
    (parse_goF (raw.length - offset + 1) raw offset map).isSome :=
  parse_goF_fuel_sufficient (raw.length - offset + 1) raw offset map (by omega)

end Git
